import Mathlib

/-!
Verification development for the SimGrid simulation-kernel excerpt:
shallow embeddings of `src/surf/surf_interface.cpp` and
`include/simgrid/s4u/Engine.hpp`, with theorems about model-catalog
lookup, version checking, engine lifecycle, registries, the filtered
netzone walk and data-file opening.
-/

namespace SimGrid

/-- A single-quote character, used when building diagnostic messages. -/
def squote : String := String.mk [Char.ofNat 39]

/-- Shallow embedding of `surf_model_description_t` (an immutable triple
name / human-readable description / initializer).  The initializer function
pointer is represented by an opaque numeric identifier, since the code only
ever stores and compares it. -/
structure ModelDescription where
  name : String
  description : String
  initFun : Nat
deriving DecidableEq, Repr

/-- Index of the first entry of `table` whose `name` field is exactly `name`,
mirroring the `std::find_if` + `std::distance` pair in
`find_model_description` (surf_interface.cpp:198-201).  `none` when no entry
matches. -/
def findPos (table : List ModelDescription) (name : String) : Option Nat :=
  match table with
  | [] => none
  | item :: rest =>
    if item.name = name then some 0
    else (findPos rest name).map (· + 1)

/-- The accumulation loop of `find_model_description`
(surf_interface.cpp:206-211): `name_list += sep + item.name; sep = ", ";`. -/
def name_list_loop : List ModelDescription → String → String → String
  | [], acc, _ => acc
  | item :: rest, acc, sep => name_list_loop rest (acc ++ sep ++ item.name) ", "

/-- The comma-separated list of valid model names as the error path of
`find_model_description` builds it. -/
def name_list (table : List ModelDescription) : String :=
  name_list_loop table "" ""

/-- Shallow embedding of `find_model_description`
(surf_interface.cpp:196-215).  A normal return yields the index of the first
matching entry; the two `xbt_die` calls (process abort with a diagnostic)
are represented as `Except.error` carrying the diagnostic message. -/
def find_model_description (table : List ModelDescription) (name : String) :
    Except String Nat :=
  match findPos table name with
  | some i => Except.ok i
  | none =>
    if table = [] then Except.error "No model is valid! This is a bug."
    else
      Except.error ("Model " ++ squote ++ name ++ squote ++
        " is invalid! Valid models are: " ++ name_list table ++ ".")

/-- The spec-side description of the diagnostic list: the catalog names
joined by a comma and a space, in catalog order. -/
def commaJoin : List String → String
  | [] => ""
  | [n] => n
  | n :: rest => n ++ ", " ++ commaJoin rest

theorem name_list_loop_sep (table : List ModelDescription) :
    ∀ acc : String, name_list_loop table acc ", " =
      match table with
      | [] => acc
      | _ => acc ++ ", " ++ commaJoin (table.map ModelDescription.name) := by
  induction table with
  | nil => intro acc; rfl
  | cons item rest ih =>
    intro acc
    show name_list_loop rest (acc ++ ", " ++ item.name) ", " = _
    rw [ih]
    cases rest with
    | nil => rfl
    | cons b l =>
      show acc ++ ", " ++ item.name ++ ", " ++ commaJoin ((b :: l).map ModelDescription.name)
          = acc ++ ", " ++ (item.name ++ ", " ++ commaJoin ((b :: l).map ModelDescription.name))
      simp [String.append_assoc]

theorem name_list_eq_commaJoin (table : List ModelDescription) :
    name_list table = commaJoin (table.map ModelDescription.name) := by
  cases table with
  | nil => rfl
  | cons item rest =>
    show name_list_loop rest (("" ++ "") ++ item.name) ", " = _
    rw [name_list_loop_sep]
    cases rest with
    | nil => simp [commaJoin]
    | cons b l =>
      show ("" ++ "") ++ item.name ++ ", " ++ commaJoin ((b :: l).map ModelDescription.name)
          = commaJoin (item.name :: (b :: l).map ModelDescription.name)
      simp [commaJoin, String.append_assoc]

theorem findPos_eq_none (table : List ModelDescription) (name : String)
    (habs : ∀ d ∈ table, d.name ≠ name) : findPos table name = none := by
  induction table with
  | nil => rfl
  | cons item rest ih =>
    have h1 : item.name ≠ name := habs item (List.mem_cons_self _ _)
    have h2 : findPos rest name = none :=
      ih fun d hd => habs d (List.mem_cons_of_mem _ hd)
    simp [findPos, h1, h2]

theorem findPos_spec (table : List ModelDescription) (name : String) (i : Nat)
    (h : findPos table name = some i) :
    ∃ hlt : i < table.length,
      (table.get ⟨i, hlt⟩).name = name ∧
        ∀ j (hj : j < table.length), j < i → (table.get ⟨j, hj⟩).name ≠ name := by
  induction table generalizing i with
  | nil => exact absurd h (by simp [findPos])
  | cons item rest ih =>
    by_cases hname : item.name = name
    · have h0 : 0 = i := by simpa [findPos, hname] using h
      subst h0
      exact ⟨Nat.succ_pos _, hname, fun j hj hji => absurd hji (Nat.not_lt_zero _)⟩
    · have h' : (findPos rest name).map (· + 1) = some i := by
        simpa [findPos, hname] using h
      obtain ⟨k, hk, hki⟩ := Option.map_eq_some'.mp h'
      subst hki
      obtain ⟨hlt, hget, hmin⟩ := ih k hk
      refine ⟨by simpa using Nat.succ_lt_succ hlt, ?_, ?_⟩
      · simpa using hget
      · intro j hj hji
        cases j with
        | zero => simpa using hname
        | succ j' =>
          have hj' : j' < rest.length := Nat.lt_of_succ_lt_succ (by simpa using hj)
          have : j' < k := by omega
          simpa using hmin j' hj' this

theorem findPos_eq_some (table : List ModelDescription) (name : String)
    (hpres : ∃ d ∈ table, d.name = name) : ∃ i, findPos table name = some i := by
  induction table with
  | nil => simp at hpres
  | cons item rest ih =>
    by_cases hname : item.name = name
    · exact ⟨0, by simp [findPos, hname]⟩
    · obtain ⟨d, hd, hdn⟩ := hpres
      rcases List.mem_cons.mp hd with rfl | hd'
      · exact absurd hdn hname
      · obtain ⟨k, hk⟩ := ih ⟨d, hd', hdn⟩
        exact ⟨k + 1, by simp [findPos, hname, hk]⟩

/-- Claim C1: selecting a name absent from a non-empty catalog is a fatal
error whose diagnostic lists every valid name of the catalog,
comma-separated, in catalog order. -/
theorem absent_model_error_enumerates_catalog
    (table : List ModelDescription) (name : String)
    (habs : ∀ d ∈ table, d.name ≠ name) (hne : table ≠ []) :
    find_model_description table name =
      Except.error ("Model " ++ squote ++ name ++ squote ++
        " is invalid! Valid models are: " ++
        commaJoin (table.map ModelDescription.name) ++ ".") := by
  rw [find_model_description, findPos_eq_none table name habs, if_neg hne,
    name_list_eq_commaJoin]

/-- Witness for C1, with the catalog of the spec example: catalog
`{"A","B"}` and request `"C"` produce a fatal error whose message mentions
exactly `"A, B"`. -/
theorem absent_model_error_enumerates_catalog_witness :
    find_model_description [⟨"A", "a model", 0⟩, ⟨"B", "b model", 1⟩] "C" =
      Except.error ("Model " ++ squote ++ "C" ++ squote ++
        " is invalid! Valid models are: A, B.") := by
  have h := absent_model_error_enumerates_catalog
    [⟨"A", "a model", 0⟩, ⟨"B", "b model", 1⟩] "C" (by decide) (by decide)
  rw [h]
  rfl

/-- Claim C6: selecting a name present in the catalog succeeds and resolves
to the first entry whose name is an exact, case-sensitive match; since
`find_model_description` is a pure function of the catalog and the name,
repeated selections of the same name necessarily yield the same index and
hence the same initializer. -/
theorem present_model_resolves_to_first_match
    (table : List ModelDescription) (name : String)
    (hpres : ∃ d ∈ table, d.name = name) :
    ∃ i, find_model_description table name = Except.ok i ∧
      ∃ hlt : i < table.length,
        (table.get ⟨i, hlt⟩).name = name ∧
          ∀ j (hj : j < table.length), j < i → (table.get ⟨j, hj⟩).name ≠ name := by
  obtain ⟨i, hi⟩ := findPos_eq_some table name hpres
  exact ⟨i, by simp [find_model_description, hi], findPos_spec table name i hi⟩

/-- Witness for C6 on the embedded network-model catalog: `"Constant"`
resolves to index 1, whose entry is named `"Constant"`, and no earlier entry
matches. -/
theorem present_model_resolves_to_first_match_witness :
    ∃ i, find_model_description
        [⟨"LV08", "lv", 0⟩, ⟨"Constant", "cst", 1⟩, ⟨"CM02", "cm", 2⟩] "Constant" =
        Except.ok i ∧
      ∃ hlt : i < 3,
        (([⟨"LV08", "lv", 0⟩, ⟨"Constant", "cst", 1⟩,
            ⟨"CM02", "cm", 2⟩] : List ModelDescription).get ⟨i, hlt⟩).name = "Constant" ∧
          ∀ j (hj : j < 3), j < i →
            (([⟨"LV08", "lv", 0⟩, ⟨"Constant", "cst", 1⟩,
                ⟨"CM02", "cm", 2⟩] : List ModelDescription).get ⟨j, hj⟩).name ≠ "Constant" :=
  present_model_resolves_to_first_match
    [⟨"LV08", "lv", 0⟩, ⟨"Constant", "cst", 1⟩, ⟨"CM02", "cm", 2⟩] "Constant"
    ⟨⟨"Constant", "cst", 1⟩, by decide, rfl⟩

/-- Claim C9: whenever `find_model_description` returns normally, the result
is an in-bounds index and the entry there has exactly the requested name; in
every other case (name absent, table possibly empty) it reaches an
`xbt_die`, embedded as an error, so no caller observes a bad index. -/
theorem find_model_description_safe (table : List ModelDescription) (name : String) :
    (∀ i, find_model_description table name = Except.ok i →
      ∃ hlt : i < table.length, (table.get ⟨i, hlt⟩).name = name) ∧
      ((∀ d ∈ table, d.name ≠ name) →
        ∃ msg, find_model_description table name = Except.error msg) := by
  constructor
  · intro i hok
    have hpos : findPos table name = some i := by
      by_cases h : ∃ k, findPos table name = some k
      · obtain ⟨k, hk⟩ := h
        have : k = i := by simpa [find_model_description, hk] using hok
        rwa [this] at hk
      · exfalso
        have hnone : findPos table name = none := by
          cases hfp : findPos table name with
          | none => rfl
          | some k => exact absurd ⟨k, hfp⟩ h
        simp only [find_model_description, hnone] at hok
        by_cases hemp : table = [] <;> simp [hemp] at hok
    obtain ⟨hlt, hget, _⟩ := findPos_spec table name i hpos
    exact ⟨hlt, hget⟩
  · intro habs
    by_cases hemp : table = []
    · refine ⟨"No model is valid! This is a bug.", ?_⟩
      simp [find_model_description, findPos, hemp]
    · refine ⟨"Model " ++ squote ++ name ++ squote ++
        " is invalid! Valid models are: " ++ name_list table ++ ".", ?_⟩
      simp [find_model_description, findPos_eq_none table name habs, hemp]

/-- Witness for C9: on a one-entry catalog the lookup of the present name
returns index 0, in bounds with the exact name, and the lookup of an absent
name returns an error. -/
theorem find_model_description_safe_witness :
    (∃ hlt : 0 < ([⟨"Cas01", "cpu", 7⟩] : List ModelDescription).length,
      (([⟨"Cas01", "cpu", 7⟩] : List ModelDescription).get ⟨0, hlt⟩).name = "Cas01") ∧
      ∃ msg, find_model_description [⟨"Cas01", "cpu", 7⟩] "nope" = Except.error msg :=
  ⟨(find_model_description_safe [⟨"Cas01", "cpu", 7⟩] "Cas01").1 0 rfl,
    (find_model_description_safe [⟨"Cas01", "cpu", 7⟩] "nope").2 (by decide)⟩

/-- Outcome of `sg_version_check`: silent success, a warning printed on
stderr, or one of the two `abort()` paths. -/
inductive VersionOutcome where
  | ok
  | warning
  | fatalMismatch
  | fatalDevMix
deriving DecidableEq, Repr

/-- Shallow embedding of `sg_version_check` (surf_interface.cpp:217-242).
`libMaj`, `libMin`, `libPatch` are the version the caller was compiled
against; `sgMaj`, `sgMin`, `sgPatch` are the compiled-in constants
`SIMGRID_VERSION_MAJOR` / `MINOR` / `PATCH` of the linked library. -/
def sg_version_check (libMaj libMin libPatch sgMaj sgMin sgPatch : Nat) :
    VersionOutcome :=
  if libMaj ≠ sgMaj ∨ libMin ≠ sgMin then VersionOutcome.fatalMismatch
  else if libPatch ≠ sgPatch then
    if sgPatch > 89 ∨ libPatch > 89 then VersionOutcome.fatalDevMix
    else VersionOutcome.warning
  else VersionOutcome.ok

/-- Claim C2: the version check is fatal whenever major or minor differ;
with equal major/minor and differing patch it only warns unless either
side's patch exceeds 89, in which case it is fatal; with all three equal it
does nothing. -/
theorem version_check_policy (libMaj libMin libPatch sgMaj sgMin sgPatch : Nat) :
    (libMaj ≠ sgMaj ∨ libMin ≠ sgMin →
      sg_version_check libMaj libMin libPatch sgMaj sgMin sgPatch =
        VersionOutcome.fatalMismatch) ∧
      (libMaj = sgMaj → libMin = sgMin → libPatch ≠ sgPatch →
        libPatch ≤ 89 → sgPatch ≤ 89 →
        sg_version_check libMaj libMin libPatch sgMaj sgMin sgPatch =
          VersionOutcome.warning) ∧
      (libMaj = sgMaj → libMin = sgMin → libPatch ≠ sgPatch →
        (libPatch > 89 ∨ sgPatch > 89) →
        sg_version_check libMaj libMin libPatch sgMaj sgMin sgPatch =
          VersionOutcome.fatalDevMix) ∧
      (libMaj = sgMaj → libMin = sgMin → libPatch = sgPatch →
        sg_version_check libMaj libMin libPatch sgMaj sgMin sgPatch =
          VersionOutcome.ok) := by
  refine ⟨fun h => by simp [sg_version_check, h], ?_, ?_, ?_⟩
  · intro h1 h2 h3 h4 h5
    have hno : ¬(sgPatch > 89 ∨ libPatch > 89) := by omega
    simp [sg_version_check, h1, h2, h3, hno]
  · intro h1 h2 h3 h4
    have : sgPatch > 89 ∨ libPatch > 89 := h4.symm
    simp [sg_version_check, h1, h2, h3, this]
  · intro h1 h2 h3
    simp [sg_version_check, h1, h2, h3]

/-- Witness for C2, exercising all four branches at concrete versions:
3.24.0 against 3.23.0 aborts; 3.23.1 against 3.23.2 only warns; 3.23.90
against 3.23.1 aborts as a development-build mix; 3.23.1 against itself is
silent. -/
theorem version_check_policy_witness :
    sg_version_check 3 24 0 3 23 0 = VersionOutcome.fatalMismatch ∧
      sg_version_check 3 23 1 3 23 2 = VersionOutcome.warning ∧
      sg_version_check 3 23 90 3 23 1 = VersionOutcome.fatalDevMix ∧
      sg_version_check 3 23 1 3 23 1 = VersionOutcome.ok :=
  ⟨(version_check_policy 3 24 0 3 23 0).1 (by decide),
    (version_check_policy 3 23 1 3 23 2).2.1 rfl rfl (by decide) (by decide) (by decide),
    (version_check_policy 3 23 90 3 23 1).2.2.1 rfl rfl (by decide) (by decide),
    (version_check_policy 3 23 1 3 23 1).2.2.2 rfl rfl rfl⟩

/-- The process-wide mutable state touched by `surf_init` / `surf_exit` /
`surf_get_clock` (surf_interface.cpp).  Resource models and storage types
are identified by opaque ids; `liveModels` tracks which model objects are
currently allocated (the heap side of `delete`), while
`all_existing_models` embeds the global vector of that name, which the code
never clears. -/
structure SurfState where
  now : ℚ
  xbt_initialized : Nat
  sg_config_done : Bool
  engineUp : Bool
  storage_types : List String
  all_existing_models : List Nat
  liveModels : List Nat
deriving DecidableEq, Repr

/-- Shallow embedding of `surf_get_clock` (surf_interface.cpp:125-128): it
returns the global `NOW`. -/
def surf_get_clock (s : SurfState) : ℚ :=
  s.now

/-- One observable step of `surf_exit`, in execution order, used to state
ordering properties of the shutdown sequence. -/
inductive ExitEvent where
  | engineShutdown
  | storageTypeDeleted (name : String)
  | modelDeleted (m : Nat)
  | tmgrFinalized
  | platfExited
deriving DecidableEq, Repr

/-- Shallow embedding of `surf_exit` (surf_interface.cpp:306-323), returning
the final state together with the ordered trace of its steps.  It first
calls `Engine::shutdown()` (whose body is outside this excerpt; per the spec
it deregisters and releases every registered resource, modelled by the
`engineShutdown` event and clearing `engineUp`), then deletes every storage
type, then deletes every model of `all_existing_models` in order (without
clearing that vector), then finalizes the trace manager and the platform
parser, and finally resets `NOW` to 0. -/
def surf_exit (s : SurfState) : SurfState × List ExitEvent :=
  ({ s with
      engineUp := false
      storage_types := []
      liveModels := s.liveModels.filter (fun m => !(s.all_existing_models.contains m))
      now := 0 },
    ExitEvent.engineShutdown ::
      (s.storage_types.map ExitEvent.storageTypeDeleted ++
        s.all_existing_models.map ExitEvent.modelDeleted ++
        [ExitEvent.tmgrFinalized, ExitEvent.platfExited]))

/-- Claim C3: after `surf_exit`, the clock query returns 0, no matter how
far any prior run advanced `NOW`. -/
theorem clock_is_zero_after_exit (s : SurfState) :
    surf_get_clock (surf_exit s).1 = 0 :=
  rfl

theorem count_modelDeleted_in_storage_map (l : List String) (m : Nat) :
    (l.map ExitEvent.storageTypeDeleted).count (ExitEvent.modelDeleted m) = 0 := by
  rw [List.count_eq_zero]
  intro hmem
  obtain ⟨x, _, hx⟩ := List.mem_map.mp hmem
  exact ExitEvent.noConfusion hx

theorem count_modelDeleted_in_model_map (l : List Nat) (m : Nat) :
    (l.map ExitEvent.modelDeleted).count (ExitEvent.modelDeleted m) = l.count m :=
  List.count_map_of_injective l ExitEvent.modelDeleted
    (fun a b h => by cases h; rfl) m

/-- Claim C4: during `surf_exit`, every model of the active-model list is
deleted exactly once, and only after the step that releases the engine's
registered resources (`Engine::shutdown`, the very first step); afterwards
no model of that list is still allocated. -/
theorem exit_destroys_each_model_once_after_resources
    (s : SurfState) (hnd : s.all_existing_models.Nodup) :
    ∃ rest, (surf_exit s).2 = ExitEvent.engineShutdown :: rest ∧
      (∀ m ∈ s.all_existing_models, rest.count (ExitEvent.modelDeleted m) = 1) ∧
        ∀ m ∈ s.all_existing_models, m ∉ (surf_exit s).1.liveModels := by
  refine ⟨_, rfl, ?_, ?_⟩
  · intro m hm
    rw [List.count_append, List.count_append,
      count_modelDeleted_in_storage_map, count_modelDeleted_in_model_map]
    have h1 : s.all_existing_models.count m = 1 := List.count_eq_one_of_mem hnd hm
    have h2 : ([ExitEvent.tmgrFinalized, ExitEvent.platfExited].count
        (ExitEvent.modelDeleted m)) = 0 := by
      rw [List.count_eq_zero]
      intro hmem
      simp at hmem
    omega
  · intro m hm hmem
    have hkept := List.of_mem_filter hmem
    simp at hkept
    exact hkept hm

/-- Witness for C4 on a concrete state with two models and one storage
type. -/
theorem exit_destroys_each_model_once_after_resources_witness :
    ∃ rest,
      (surf_exit ⟨5, 1, true, true, ["tmpfs"], [10, 11], [10, 11, 42]⟩).2 =
        ExitEvent.engineShutdown :: rest ∧
        (∀ m ∈ ([10, 11] : List Nat), rest.count (ExitEvent.modelDeleted m) = 1) ∧
          ∀ m ∈ ([10, 11] : List Nat),
            m ∉ (surf_exit ⟨5, 1, true, true, ["tmpfs"], [10, 11], [10, 11, 42]⟩).1.liveModels :=
  exit_destroys_each_model_once_after_resources
    ⟨5, 1, true, true, ["tmpfs"], [10, 11], [10, 11, 42]⟩ (by decide)

/-- Shallow embedding of `surf_init` (surf_interface.cpp:293-304): when
`xbt_initialized > 0` it returns immediately, touching nothing; otherwise it
runs `xbt_init` and `sg_config_init` (whose bodies are outside this excerpt
and are modelled from the spec as marking the xbt layer and the
configuration subsystem initialized; the model-checker branch is compiled
out in the configuration considered here). -/
def surf_init (s : SurfState) : SurfState :=
  if s.xbt_initialized > 0 then s
  else { s with xbt_initialized := s.xbt_initialized + 1, sg_config_done := true }

/-- Modelled from the spec: the body of the `Engine` constructor is not part
of this excerpt (Engine.cpp is absent; Engine.hpp:27-37 only declares it,
deleting copy and move).  Per the spec the engine is a process-wide
singleton held in the static `instance_` field: constructing while an
instance is live is an error, otherwise the new instance is recorded. -/
def Engine.construct (instanceVar : Option Nat) (fresh : Nat) :
    Except String (Option Nat) :=
  match instanceVar with
  | some _ => Except.error "only one Engine instance is allowed per process"
  | none => Except.ok (some fresh)

/-- Claim C8: the engine is a process-wide singleton — constructing a second
engine while one is live fails — and calling `surf_init` again while the
kernel is already initialized leaves every piece of process state
unchanged. -/
theorem engine_singleton_and_reinit_noop
    (s : SurfState) (instanceVar : Option Nat) (fresh : Nat) :
    (s.xbt_initialized > 0 → surf_init s = s) ∧
      ((∃ e, instanceVar = some e) →
        ∃ msg, Engine.construct instanceVar fresh = Except.error msg) ∧
        (instanceVar = none →
          Engine.construct instanceVar fresh = Except.ok (some fresh)) := by
  refine ⟨fun h => by simp [surf_init, h], ?_, ?_⟩
  · rintro ⟨e, rfl⟩
    exact ⟨_, rfl⟩
  · rintro rfl
    rfl

/-- Witness for C8: with the kernel already initialized, `surf_init` is the
identity on a concrete state, and constructing while instance 7 is live
fails. -/
theorem engine_singleton_and_reinit_noop_witness :
    surf_init ⟨2, 1, true, true, [], [], []⟩ = ⟨2, 1, true, true, [], [], []⟩ ∧
      ∃ msg, Engine.construct (some 7) 8 = Except.error msg :=
  ⟨(engine_singleton_and_reinit_noop ⟨2, 1, true, true, [], [], []⟩ (some 7) 8).1
      (by decide),
    (engine_singleton_and_reinit_noop ⟨2, 1, true, true, [], [], []⟩ (some 7) 8).2.1
      ⟨7, rfl⟩⟩

/-- A node of the topology tree (`s4u::NetZone`): an implementation
category tag standing for the dynamic type of the underlying
`NetZoneImpl`, plus the list of child zones returned by
`get_children()`. -/
inductive NetZone where
  | node (implTag : Nat) (children : List NetZone)
deriving Repr

/-- The implementation-category tag of a zone (what `dynamic_cast<T*>`
tests). -/
def NetZone.implTag : NetZone → Nat
  | .node i _ => i

/-- The children of a zone, as returned by `get_children()`. -/
def NetZone.children : NetZone → List NetZone
  | .node _ cs => cs

mutual

/-- Shallow embedding of `get_filtered_netzones_recursive`
(Engine.hpp:181-191): for each child of the current zone, first recurse
into it, then append the child itself when its implementation matches the
requested category.  `matchTag` embeds the `dynamic_cast<T*> != nullptr`
test of the template argument. -/
def get_filtered_netzones_recursive (matchTag : Nat → Bool) : NetZone → List NetZone
  | .node _ cs => filtered_children matchTag cs

/-- The body of the `for (auto const& elem : current->get_children())` loop
of `get_filtered_netzones_recursive`, over the remaining children. -/
def filtered_children (matchTag : Nat → Bool) : List NetZone → List NetZone
  | [] => []
  | c :: rest =>
    get_filtered_netzones_recursive matchTag c ++
      (if matchTag c.implTag then [c] else []) ++ filtered_children matchTag rest

end

/-- Shallow embedding of `Engine::get_filtered_netzones`
(Engine.hpp:137-144): it starts the recursive walk at the root zone with an
empty result vector. -/
def get_filtered_netzones (matchTag : Nat → Bool) (root : NetZone) : List NetZone :=
  get_filtered_netzones_recursive matchTag root

mutual

/-- Every node of the topology tree rooted at a zone (the zone itself and
all of its descendants); the claim-side notion of "nodes in that tree". -/
def NetZone.allNodes : NetZone → List NetZone
  | .node i cs => NetZone.node i cs :: allNodesOf cs

/-- All nodes of the forest formed by a list of zones. -/
def allNodesOf : List NetZone → List NetZone
  | [] => []
  | c :: rest => c.allNodes ++ allNodesOf rest

end

theorem allNodes_eq_cons (z : NetZone) :
    z.allNodes = z :: allNodesOf z.children := by
  cases z
  rfl

mutual

theorem mem_filtered_netzones_recursive (matchTag : Nat → Bool) (t : NetZone)
    (z : NetZone) :
    z ∈ get_filtered_netzones_recursive matchTag t ↔
      z ∈ allNodesOf t.children ∧ matchTag z.implTag = true := by
  cases t with
  | node i cs =>
    exact mem_filtered_children matchTag cs z

theorem mem_filtered_children (matchTag : Nat → Bool) (cs : List NetZone)
    (z : NetZone) :
    z ∈ filtered_children matchTag cs ↔
      z ∈ allNodesOf cs ∧ matchTag z.implTag = true := by
  cases cs with
  | nil => simp [filtered_children, allNodesOf]
  | cons c rest =>
    have hc := mem_filtered_netzones_recursive matchTag c z
    have hrest := mem_filtered_children matchTag rest z
    constructor
    · intro hz
      rcases List.mem_append.mp hz with hz' | hz'
      · rcases List.mem_append.mp hz' with hz'' | hz''
        · obtain ⟨hmem, hmatch⟩ := hc.mp hz''
          refine ⟨?_, hmatch⟩
          simp [allNodesOf, allNodes_eq_cons c]
          tauto
        · by_cases hm : matchTag c.implTag = true
          · rw [if_pos hm] at hz''
            have hzc : z = c := List.mem_singleton.mp hz''
            subst hzc
            refine ⟨?_, hm⟩
            simp [allNodesOf, allNodes_eq_cons z]
          · rw [if_neg hm] at hz''
            simp at hz''
      · obtain ⟨hmem, hmatch⟩ := hrest.mp hz'
        refine ⟨?_, hmatch⟩
        simp [allNodesOf]
        tauto
    · rintro ⟨hmem, hmatch⟩
      simp only [allNodesOf, List.mem_append, allNodes_eq_cons c,
        List.mem_cons] at hmem
      rcases hmem with (hzc | hdesc) | hrest'
      · subst hzc
        refine List.mem_append.mpr (Or.inl (List.mem_append.mpr (Or.inr ?_)))
        rw [if_pos hmatch]
        exact List.mem_singleton.mpr rfl
      · exact List.mem_append.mpr
          (Or.inl (List.mem_append.mpr (Or.inl (hc.mpr ⟨hdesc, hmatch⟩))))
      · exact List.mem_append.mpr (Or.inr (hrest.mpr ⟨hrest', hmatch⟩))

end

/-- Counterexample for C5 at a concrete input: a one-node topology whose
root matches the requested category.  The root is a node of the tree and
matches, yet the filtered walk returns the empty list, because the code
only ever tests children and never the zone it starts from. -/
theorem filtered_netzones_miss_matching_root :
    NetZone.node 0 [] ∈ (NetZone.node 0 []).allNodes ∧
      (fun _ => true) (NetZone.node 0 []).implTag = true ∧
        get_filtered_netzones (fun _ => true) (NetZone.node 0 []) = [] :=
  ⟨List.mem_singleton.mpr rfl, rfl, rfl⟩

/-- Claim C5 as amended: the filtered recursive walk started at the root
zone returns exactly the nodes strictly below the root (the nodes of the
subtrees of the root's children, at every depth) whose implementation
matches the requested category; the root itself is never examined. -/
theorem filtered_netzones_exactly_matching_strict_descendants
    (matchTag : Nat → Bool) (root : NetZone) (z : NetZone) :
    z ∈ get_filtered_netzones matchTag root ↔
      z ∈ allNodesOf root.children ∧ matchTag z.implTag = true :=
  mem_filtered_netzones_recursive matchTag root z

/-- Modelled from the spec: the bodies of `Engine::host_register`,
`host_unregister`, `host_by_name` and `host_by_name_or_null` (declared at
Engine.hpp:95-111, with the same shape for links and storages) live in
Engine.cpp, which is not part of this excerpt.  Per the spec (sections 3
and 4.1) a resource registry is a flat name-keyed catalog kept in
registration order: registering an already-present name fails,
unregistering an absent name fails, the throwing lookup is fatal on an
absent name and the non-throwing lookup returns an empty result instead.
Since names are unique at any instant, removing every entry carrying a name
removes exactly the one entry for it. -/
structure Registry (α : Type) where
  entries : List (String × α)
deriving DecidableEq, Repr

/-- The empty registry, the state before any resource is created. -/
def Registry.empty (α : Type) : Registry α :=
  ⟨[]⟩

/-- The resource currently bound to `name`, if any. -/
def Registry.lookup {α : Type} (r : Registry α) (name : String) : Option α :=
  (r.entries.find? (fun p => p.1 == name)).map Prod.snd

/-- Registering a resource: fails if the name is already present, otherwise
appends the entry (registration order is preserved). -/
def Registry.register {α : Type} (r : Registry α) (name : String) (v : α) :
    Except String (Registry α) :=
  match r.lookup name with
  | some _ => Except.error ("another resource is already registered under the name " ++ name)
  | none => Except.ok ⟨r.entries ++ [(name, v)]⟩

/-- Unregistering a resource: fails if the name is absent, otherwise drops
its entry. -/
def Registry.unregister {α : Type} (r : Registry α) (name : String) :
    Except String (Registry α) :=
  match r.lookup name with
  | none => Except.error ("no resource is registered under the name " ++ name)
  | some _ => Except.ok ⟨r.entries.filter (fun p => !(p.1 == name))⟩

/-- The throwing lookup (`host_by_name` family): fatal on an absent name. -/
def Registry.by_name {α : Type} (r : Registry α) (name : String) :
    Except String α :=
  match r.lookup name with
  | some v => Except.ok v
  | none => Except.error ("no resource is registered under the name " ++ name)

/-- The non-throwing lookup (`host_by_name_or_null` family): empty result
on an absent name. -/
def Registry.by_name_or_null {α : Type} (r : Registry α) (name : String) :
    Option α :=
  r.lookup name

/-- One call of a register/unregister sequence. -/
inductive RegOp (α : Type) where
  | reg (name : String) (v : α)
  | unreg (name : String)
deriving DecidableEq, Repr

/-- Running one call against the registry; a failing call leaves the
registry unchanged. -/
def Registry.applyOp {α : Type} (r : Registry α) : RegOp α → Registry α
  | RegOp.reg n v =>
    match r.register n v with
    | Except.ok r2 => r2
    | Except.error _ => r
  | RegOp.unreg n =>
    match r.unregister n with
    | Except.ok r2 => r2
    | Except.error _ => r

/-- Running a finite sequence of calls, in order. -/
def Registry.applyOps {α : Type} (r : Registry α) : List (RegOp α) → Registry α
  | [] => r
  | op :: rest => (r.applyOp op).applyOps rest

/-- The spec-side view of one call on an abstract name-to-resource map:
a registration takes effect only on a free name, an unregistration only on
a bound one. -/
def specStep {α : Type} (m : String → Option α) : RegOp α → String → Option α
  | RegOp.reg n v =>
    match m n with
    | none => fun k => if k = n then some v else m k
    | some _ => m
  | RegOp.unreg n =>
    match m n with
    | none => m
    | some _ => fun k => if k = n then none else m k

/-- The spec-side view of a call sequence on an abstract map. -/
def specApply {α : Type} (m : String → Option α) : List (RegOp α) → String → Option α
  | [] => m
  | op :: rest => specApply (specStep m op) rest

/-- A name is currently registered after a call sequence when it was
registered by some successful call and not unregistered afterwards, i.e.
the spec-side map built from the empty one still binds it. -/
def currentlyRegistered {α : Type} (ops : List (RegOp α)) (name : String) : Prop :=
  specApply (fun _ => none) ops name ≠ none

theorem find?_key_append_single {α : Type} (l : List (String × α)) (n k : String)
    (v : α) (hnone : l.find? (fun p => p.1 == n) = none) :
    (l ++ [(n, v)]).find? (fun p => p.1 == k) =
      if k = n then some (n, v) else l.find? (fun p => p.1 == k) := by
  induction l with
  | nil =>
    by_cases hk : k = n
    · simp [List.find?, hk]
    · have : (n == k) = false := by
        simpa using fun h => hk h.symm
      simp [List.find?, this, hk]
  | cons p tail ih =>
    have hn : (p.1 == n) = false := by
      by_contra hcon
      have hp1 : (p.1 == n) = true := by
        cases hb : (p.1 == n) with
        | true => rfl
        | false => exact absurd hb hcon
      simp [List.find?, hp1] at hnone
    have htail : tail.find? (fun p => p.1 == n) = none := by
      simpa [List.find?, hn] using hnone
    by_cases hpk : (p.1 == k) = true
    · have hkn : ¬ k = n := by
        intro hkn
        subst hkn
        rw [hpk] at hn
        exact Bool.noConfusion hn
      simp [List.find?, hpk, hkn]
    · have hpk' : (p.1 == k) = false := by
        cases hb : (p.1 == k) with
        | true => exact absurd hb hpk
        | false => rfl
      simp only [List.cons_append, List.find?, hpk']
      exact ih htail

theorem find?_key_filter {α : Type} (l : List (String × α)) (n k : String) :
    (l.filter (fun p => !(p.1 == n))).find? (fun p => p.1 == k) =
      if k = n then none else l.find? (fun p => p.1 == k) := by
  induction l with
  | nil => simp [List.find?]
  | cons p tail ih =>
    by_cases hpn : (p.1 == n) = true
    · have hp1 : p.1 = n := by simpa using hpn
      by_cases hk : k = n
      · simp [List.filter, hpn, ih, hk]
      · have hpk : (p.1 == k) = false := by
          subst hp1
          simpa using fun h => hk h.symm
        simp [List.filter, hpn, ih, hk, List.find?, hpk]
    · have hpn' : (p.1 == n) = false := by
        cases hb : (p.1 == n) with
        | true => exact absurd hb hpn
        | false => rfl
      by_cases hpk : (p.1 == k) = true
      · have hkn : ¬ k = n := by
          intro hkn
          subst hkn
          rw [hpk] at hpn'
          exact Bool.noConfusion hpn'

        simp [List.filter, hpn', List.find?, hpk, hkn]
      · have hpk' : (p.1 == k) = false := by
          cases hb : (p.1 == k) with
          | true => exact absurd hb hpk
          | false => rfl
        simp [List.filter, hpn', List.find?, hpk', ih]

theorem lookup_applyOp {α : Type} (r : Registry α) (op : RegOp α) (k : String) :
    (r.applyOp op).lookup k = specStep (fun x => r.lookup x) op k := by
  cases op with
  | reg n v =>
    cases hl : r.lookup n with
    | some w =>
      simp [Registry.applyOp, Registry.register, hl, specStep]
    | none =>
      have hfind : r.entries.find? (fun p => p.1 == n) = none := by
        cases hf : r.entries.find? (fun p => p.1 == n) with
        | none => rfl
        | some p => simp [Registry.lookup, hf] at hl
      simp only [Registry.applyOp, Registry.register, hl, specStep]
      simp only [Registry.lookup, find?_key_append_single r.entries n k v hfind]
      by_cases hk : k = n <;> simp [hk]
  | unreg n =>
    cases hl : r.lookup n with
    | none =>
      simp [Registry.applyOp, Registry.unregister, hl, specStep]
    | some w =>
      simp only [Registry.applyOp, Registry.unregister, hl, specStep]
      simp only [Registry.lookup, find?_key_filter r.entries n k]
      by_cases hk : k = n <;> simp [hk, hl]

theorem lookup_applyOps {α : Type} (ops : List (RegOp α)) (r : Registry α)
    (k : String) :
    (r.applyOps ops).lookup k = specApply (fun x => r.lookup x) ops k := by
  induction ops generalizing r with
  | nil => rfl
  | cons op rest ih =>
    show ((r.applyOp op).applyOps rest).lookup k = _
    rw [ih (r.applyOp op)]
    have hfun : (fun x => (r.applyOp op).lookup x) =
        specStep (fun x => r.lookup x) op :=
      funext fun x => lookup_applyOp r op x
    rw [hfun]
    rfl

/-- Claim C7: after any finite sequence of register/unregister calls
starting from the empty registry, the throwing lookup succeeds on a name
iff that name is currently registered (registered by a successful call and
not unregistered since); registering an already-present name fails,
unregistering an absent name fails, and the non-throwing lookup returns an
empty result instead of failing on an absent name. -/
theorem registry_contract (α : Type) (ops : List (RegOp α)) (name : String) :
    ((∃ v, ((Registry.empty α).applyOps ops).by_name name = Except.ok v) ↔
      currentlyRegistered ops name) ∧
      (∀ (r : Registry α) (w : α), r.lookup name = some w →
        ∀ v, ∃ msg, r.register name v = Except.error msg) ∧
      (∀ r : Registry α, r.lookup name = none →
        ∃ msg, r.unregister name = Except.error msg) ∧
      (∀ r : Registry α, r.lookup name = none →
        r.by_name_or_null name = none ∧
          ∃ msg, r.by_name name = Except.error msg) := by
  refine ⟨?_, ?_, ?_, ?_⟩
  · have hlook : ((Registry.empty α).applyOps ops).lookup name =
        specApply (fun _ => none) ops name := by
      rw [lookup_applyOps]
      rfl
    constructor
    · rintro ⟨v, hv⟩
      intro hnone
      rw [← hlook] at hnone
      simp [Registry.by_name, hnone] at hv
    · intro hreg
      cases hl : ((Registry.empty α).applyOps ops).lookup name with
      | none => exact absurd (hlook ▸ hl) hreg
      | some v => exact ⟨v, by simp [Registry.by_name, hl]⟩
  · intro r w hw v
    exact ⟨"another resource is already registered under the name " ++ name,
      by simp [Registry.register, hw]⟩
  · intro r hnone
    exact ⟨"no resource is registered under the name " ++ name,
      by simp [Registry.unregister, hnone]⟩
  · intro r hnone
    exact ⟨hnone, "no resource is registered under the name " ++ name,
      by simp [Registry.by_name, hnone]⟩

/-- Witness for C7: after registering hosts under names h1 and h2 and then
unregistering h1, the throwing lookup succeeds on h2; registering a
duplicate h2, unregistering the absent h1, and both lookups on the empty
registry behave as claimed. -/
theorem registry_contract_witness :
    (∃ v, ((Registry.empty Nat).applyOps
        [RegOp.reg "h1" 1, RegOp.reg "h2" 2, RegOp.unreg "h1"]).by_name "h2" =
          Except.ok v) ∧
      (∃ msg, Registry.register (⟨[("h2", 2)]⟩ : Registry Nat) "h2" 5 =
        Except.error msg) ∧
      (∃ msg, Registry.unregister (Registry.empty Nat) "h2" = Except.error msg) ∧
      Registry.by_name_or_null (Registry.empty Nat) "h2" = none :=
  ⟨(registry_contract Nat [RegOp.reg "h1" 1, RegOp.reg "h2" 2, RegOp.unreg "h1"]
        "h2").1.mpr
      (show specApply (fun _ => none)
          [RegOp.reg "h1" 1, RegOp.reg "h2" 2, RegOp.unreg "h1"] "h2" ≠ none by decide),
    (registry_contract Nat [] "h2").2.1 (⟨[("h2", 2)]⟩ : Registry Nat) 2 (by decide) 5,
    (registry_contract Nat [] "h2").2.2.1 (Registry.empty Nat) (by decide),
    ((registry_contract Nat [] "h2").2.2.2 (Registry.empty Nat) (by decide)).1⟩

/-- Shallow embedding of `is_absolute_file_path`
(surf_interface.cpp:131-145), non-Windows branch: true iff the first
character of the path is a slash (for the empty string, `c_str()[0]` is the
NUL terminator, so the test is false). -/
def is_absolute_file_path (path : String) : Bool :=
  path.data.head? == some '/'

/-- Shallow embedding of the search loop of `surf_fopen`
(surf_interface.cpp:177-185): try `path_elm + "/" + name` for each entry of
`surf_path` in order, returning the first successful open, or null when
every attempt fails.  The host filesystem is modelled by `fopen`, a partial
map from path to file handle. -/
def surf_fopen_loop (fopen : String → Option Nat) :
    List String → String → Option Nat
  | [], _ => none
  | path_elm :: rest, name =>
    match fopen (path_elm ++ "/" ++ name) with
    | some file => some file
    | none => surf_fopen_loop fopen rest name

/-- Shallow embedding of `surf_fopen` (surf_interface.cpp:170-186): an
absolute name is opened directly, and a relative name is searched through
`surf_path` in order. -/
def surf_fopen (fopen : String → Option Nat) (surf_path : List String)
    (name : String) : Option Nat :=
  if is_absolute_file_path name then fopen name
  else surf_fopen_loop fopen surf_path name

theorem surf_fopen_loop_none (fopen : String → Option Nat)
    (surf_path : List String) (name : String) :
    surf_fopen_loop fopen surf_path name = none ↔
      ∀ pe ∈ surf_path, fopen (pe ++ "/" ++ name) = none := by
  induction surf_path with
  | nil => simp [surf_fopen_loop]
  | cons pe rest ih =>
    cases hf : fopen (pe ++ "/" ++ name) with
    | some file =>
      simp [surf_fopen_loop, hf]
    | none =>
      simp [surf_fopen_loop, hf, ih]

theorem surf_fopen_loop_some (fopen : String → Option Nat)
    (surf_path : List String) (name : String) (file : Nat)
    (h : surf_fopen_loop fopen surf_path name = some file) :
    ∃ pre pe post, surf_path = pre ++ pe :: post ∧
      fopen (pe ++ "/" ++ name) = some file ∧
        ∀ q ∈ pre, fopen (q ++ "/" ++ name) = none := by
  induction surf_path with
  | nil => simp [surf_fopen_loop] at h
  | cons pe rest ih =>
    cases hf : fopen (pe ++ "/" ++ name) with
    | some f2 =>
      have hfe : f2 = file := by simpa [surf_fopen_loop, hf] using h
      subst hfe
      exact ⟨[], pe, rest, rfl, hf, by simp⟩
    | none =>
      have h' : surf_fopen_loop fopen rest name = some file := by
        simpa [surf_fopen_loop, hf] using h
      obtain ⟨pre, pe2, post, hsplit, hopen, hfailed⟩ := ih h'
      refine ⟨pe :: pre, pe2, post, by simp [hsplit], hopen, ?_⟩
      intro q hq
      rcases List.mem_cons.mp hq with rfl | hq'
      · exact hf
      · exact hfailed q hq'

/-- Claim C10: opening a data file by name.  A name starting with a slash
is opened directly and the search path is never consulted (the result does
not depend on it at all); for a relative name the result is the first
successful open among the search-path entries taken in order, each tried as
`path_elm + "/" + name`, and the result is null iff none of them can be
opened. -/
theorem surf_fopen_contract (fopen : String → Option Nat)
    (surf_path : List String) (name : String) :
    (name.data.head? = some '/' →
      ∀ other_path : List String,
        surf_fopen fopen other_path name = fopen name) ∧
      (name.data.head? ≠ some '/' →
        (surf_fopen fopen surf_path name = none ↔
          ∀ pe ∈ surf_path, fopen (pe ++ "/" ++ name) = none) ∧
          ∀ file, surf_fopen fopen surf_path name = some file →
            ∃ pre pe post, surf_path = pre ++ pe :: post ∧
              fopen (pe ++ "/" ++ name) = some file ∧
                ∀ q ∈ pre, fopen (q ++ "/" ++ name) = none) := by
  constructor
  · intro habs other_path
    have : is_absolute_file_path name = true := by
      simp [is_absolute_file_path, habs]
    simp [surf_fopen, this]
  · intro hrel
    have : is_absolute_file_path name = false := by
      simp [is_absolute_file_path]
      intro h
      exact absurd h hrel
    constructor
    · simpa [surf_fopen, this] using surf_fopen_loop_none fopen surf_path name
    · intro file hfile
      exact surf_fopen_loop_some fopen surf_path name file
        (by simpa [surf_fopen, this] using hfile)

/-- Witness for C10: with a filesystem holding `/etc/platf.xml` and
`./data/platf.xml`, the absolute name bypasses a search path that could
also resolve it, and the relative name resolves through the second
search-path entry after the first one fails. -/
theorem surf_fopen_contract_witness :
    surf_fopen
        (fun p => if p = "/etc/platf.xml" then some 1
          else if p = "./data/platf.xml" then some 2 else none)
        ["./data", "/etc"] "/etc/platf.xml" = some 1 ∧
      ∃ pre pe post, (["./data2", "./data"] : List String) = pre ++ pe :: post ∧
        (fun p => if p = "/etc/platf.xml" then some 1
          else if p = "./data/platf.xml" then some 2 else none)
          (pe ++ "/" ++ "platf.xml") = some 2 ∧
          ∀ q ∈ pre,
            (fun p => if p = "/etc/platf.xml" then some 1
              else if p = "./data/platf.xml" then some 2 else none)
              (q ++ "/" ++ "platf.xml") = none := by
  constructor
  · have h := (surf_fopen_contract
        (fun p => if p = "/etc/platf.xml" then some 1
          else if p = "./data/platf.xml" then some 2 else none)
        ["./data", "/etc"] "/etc/platf.xml").1 (by decide) ["./data", "/etc"]
    rw [h]
    decide
  · exact (surf_fopen_contract
        (fun p => if p = "/etc/platf.xml" then some 1
          else if p = "./data/platf.xml" then some 2 else none)
        ["./data2", "./data"] "platf.xml").2 (by decide) |>.2 2 (by decide)

end SimGrid
